import Mathlib

/-!
Verification of the ts-namespace-import tsserver plugin (src/Plugin.js).

The development shallowly embeds the plugin's pure logic in Lean:

* Node `path` (POSIX flavour) primitives: `basenameStr`, `dirname`,
  `extname`, `posixRelative`, `resolvePath`.  Paths are strings; the
  plugin itself runs them through `path.posix` (or the platform `path`
  on a POSIX host), so POSIX semantics are used throughout.
* The specifier resolver `getModuleSpceifier` (sic, the source's own
  spelling) with its deterministic fallback (`fallbackRawSpecifier`,
  `fallbackSpecifier`); the host's native resolver is modelled as an
  `Option (Except Unit String)` argument: `none` = capability absent,
  `some (.error _)` = the native call throws, `some (.ok s)` = it
  returns `s`.
* Module discovery `getModulePathsToImport`, the name transform
  `transformImportName` / `stringCase`, the code-fix builders
  `getCodeFixActionFromPath` / `getCodeFixActionByName`, and the
  completion filter `filterNamedImportEntries` (whose possible
  `TypeError` is an `Except Unit` result).

JavaScript truthiness of optional strings is modelled by `jsTruthy`;
absent optional booleans are `false`, matching `!x` on `undefined`.
-/

/-- JS truthiness of an optional string: `undefined` and `""` are falsy. -/
def jsTruthy : Option String → Bool
  | none => false
  | some s => !(s == "")

/-- `s.startsWith(p)` of JavaScript / `String.startsWith` over characters. -/
def strStartsWith (s p : String) : Bool :=
  p.data.isPrefixOf s.data

/-- `s.endsWith(p)` over characters. -/
def strEndsWith (s p : String) : Bool :=
  p.data.isSuffixOf s.data

/-- Character-level test for a backslash anywhere in the string. -/
def hasBackslash (s : String) : Bool :=
  s.data.any (fun c => c = '\\')

/-- Embedding of `specifier.replace(/\\/g, "/")`: every backslash
character becomes a forward slash. -/
def replaceBackslashes (s : String) : String :=
  String.mk (s.data.map (fun c => if c = '\\' then '/' else c))

/-- Split a character list at every occurrence of `sep` (empty
components kept), mirroring splitting a string on one separator. -/
def splitCharAux (sep : Char) : List Char → List Char → List (List Char)
  | [], acc => [acc.reverse]
  | c :: rest, acc =>
    if c = sep then acc.reverse :: splitCharAux sep rest []
    else splitCharAux sep rest (c :: acc)

/-- Split a string at every occurrence of `sep`. -/
def splitChar (s : String) (sep : Char) : List String :=
  (splitCharAux sep s.data []).map String.mk

/-- Split a path string at every `/`. -/
def splitSlash (s : String) : List String :=
  splitChar s '/'

/-- Node `path.posix.basename(p)`: trailing slashes dropped, then the
part after the last remaining slash. -/
def basenameStr (p : String) : String :=
  String.mk (((p.data.reverse.dropWhile (fun c => c = '/')).takeWhile
    (fun c => c ≠ '/')).reverse)

/-- Node `path.posix.dirname(p)`. -/
def dirname (p : String) : String :=
  let cs := (p.data.reverse.dropWhile (fun c => c = '/')).reverse
  if cs.isEmpty then
    (if p.data.contains '/' then "/" else ".")
  else
    let rev := cs.reverse
    let rest := rev.dropWhile (fun c => c ≠ '/')
    if rest.isEmpty then "."
    else
      let rest2 := rest.dropWhile (fun c => c = '/')
      if rest2.isEmpty then "/" else String.mk rest2.reverse

/-- Node `path.posix.extname(p)`: from the last dot of the basename to
the end, empty when there is no dot or the only dot leads the name. -/
def extname (p : String) : String :=
  let b := (basenameStr p).data
  let afterDot := b.reverse.takeWhile (fun c => c ≠ '.')
  if afterDot.length = b.length then ""
  else if afterDot.length + 1 = b.length then ""
  else String.mk (b.drop (b.length - afterDot.length - 1))

/-- Path normalisation into components: empty and `.` segments vanish,
`..` pops (as in resolving an absolute path). -/
def normComponents (p : String) : List String :=
  (splitSlash p).foldl
    (fun acc c =>
      if c = "" || c = "." then acc
      else if c = ".." then acc.dropLast
      else acc ++ [c]) []

/-- Drop the shared leading components of two component lists. -/
def stripCommon : List String → List String → List String × List String
  | x :: xs, y :: ys =>
    if x = y then stripCommon xs ys else (x :: xs, y :: ys)
  | xs, ys => (xs, ys)

/-- Node `path.posix.relative(src, dst)`: one `..` per leftover source
component, then the leftover destination components. -/
def posixRelative (src dst : String) : String :=
  let pair := stripCommon (normComponents src) (normComponents dst)
  String.intercalate "/" (List.replicate pair.1.length ".." ++ pair.2)

/-- Node `path.resolve(base, p)` with an absolute `base`. -/
def resolvePath (base p : String) : String :=
  "/" ++ String.intercalate "/"
    (normComponents (if strStartsWith p "/" then p else base ++ "/" ++ p))

/-- `getFileNameWithoutExt` of Plugin.js:
`path.basename(filePath, path.extname(filePath))`.  Node strips the
extension only when it is a proper suffix of the basename. -/
def getFileNameWithoutExt (filePath : String) : String :=
  let ext := extname filePath
  let b := basenameStr filePath
  if ext ≠ "" && b ≠ ext && strEndsWith b ext then
    String.mk (b.data.take (b.data.length - ext.data.length))
  else b

/-- `getFilePathWithoutExt` of Plugin.js:
`filePath.slice(0, filePath.length - ext.length)`. -/
def getFilePathWithoutExt (filePath : String) : String :=
  String.mk (filePath.data.take
    (filePath.data.length - (extname filePath).data.length))

/-- The compiler settings the resolver reads. -/
structure CompilerOptions where
  baseUrl : Option String
  importModuleSpecifierEnding : Option String
deriving DecidableEq

/-- Lines 216–226 of Plugin.js: the fallback specifier before extension
handling.  With a truthy `baseUrl` it is the POSIX-relative path from
`baseUrl`; otherwise the path relative to the importing file's
directory, `./`-prefixed when it lacks a leading dot, with backslashes
converted to forward slashes. -/
def fallbackRawSpecifier (selfPath modulePath : String)
    (opts : CompilerOptions) : String :=
  if jsTruthy opts.baseUrl then
    posixRelative (opts.baseUrl.getD "") modulePath
  else
    let selfDir := dirname selfPath
    let relativePath := posixRelative selfDir modulePath
    let specifier :=
      if strStartsWith relativePath "." then relativePath
      else "./" ++ relativePath
    replaceBackslashes specifier

/-- Lines 216–243 of Plugin.js: the full fallback — strip the original
extension, then re-apply it per `importModuleSpecifierEnding` (`"js"`
and the default re-append the module's actual extension, `"minimal"`
leaves it off). -/
def fallbackSpecifier (selfPath modulePath : String)
    (opts : CompilerOptions) : String :=
  let specifier :=
    getFilePathWithoutExt (fallbackRawSpecifier selfPath modulePath opts)
  if opts.importModuleSpecifierEnding = some "js" then
    specifier ++ extname modulePath
  else if opts.importModuleSpecifierEnding = some "minimal" then
    specifier
  else
    specifier ++ extname modulePath

/-- `getModuleSpceifier` of Plugin.js.  The `native` argument models the
guarded call to `ts.moduleSpecifiers.getModuleSpecifier`: `none` when
the importing source file or host is unavailable, `some (.error _)`
when the internal API throws (the `catch` falls through), and
`some (.ok s)` when it returns `s`. -/
def getModuleSpceifier (selfPath modulePath : String)
    (opts : CompilerOptions) (native : Option (Except Unit String)) : String :=
  match native with
  | some (Except.ok s) => s
  | some (Except.error _) => fallbackSpecifier selfPath modulePath opts
  | none => fallbackSpecifier selfPath modulePath opts

/-- The plugin configuration (`PluginOptions` of Plugin.js).  Optional
booleans default to `false` (JS falsiness of `undefined`); the optional
`nameTransform` string is kept optional to model truthiness. -/
structure PluginOptions where
  paths : Option (List String)
  ignoreNamedExport : Bool
  nameTransform : Option String
  capitalizedFilesOnly : Bool

/-- The slice of `ts.server.Project` the plugin consumes: the current
directory and `readDirectory(root, extensions, ..., depth)`. -/
structure Project where
  currentDirectory : String
  readDirectory : String → List String → Option Nat → List String

/-- The extension allow-list passed to `readDirectory`. -/
def moduleExtensions : List String := [".ts", ".tsx", ".js", ".jsx"]

/-- `/^[A-Z]/.test(basename)`. -/
def startsWithUpperAscii (s : String) : Bool :=
  match s.data with
  | [] => false
  | c :: _ => decide ('A' ≤ c ∧ c ≤ 'Z')

/-- `[...new Set(xs)]`: deduplicate keeping first occurrences in order. -/
def jsSetDedup (l : List String) : List String :=
  l.foldl (fun acc x => if x ∈ acc then acc else acc ++ [x]) []

/-- `getModulePathsToImport` of Plugin.js (lines 129–168): list the
configured roots (or scan the project to depth 10), drop basenames
containing a dot, optionally keep only capitalized basenames, and
deduplicate with set semantics. -/
def getModulePathsToImport (options : PluginOptions) (project : Project) :
    List String :=
  let currentDir := project.currentDirectory
  let modulePaths :=
    match options.paths with
    | some ps =>
      if ps.length > 0 then
        ps.flatMap (fun dirPath =>
          project.readDirectory (resolvePath currentDir dirPath)
            moduleExtensions none)
      else
        project.readDirectory currentDir moduleExtensions (some 10)
    | none => project.readDirectory currentDir moduleExtensions (some 10)
  let filteredPaths := modulePaths.filter (fun filePath =>
    let basename := getFileNameWithoutExt filePath
    if basename.data.contains '.' then false
    else if options.capitalizedFilesOnly then startsWithUpperAscii basename
    else true)
  jsSetDedup filteredPaths

/-- ASCII alphanumeric test, the `[^a-zA-Z0-9]` character class negated. -/
def isAsciiAlnum (c : Char) : Bool :=
  decide (('a' ≤ c ∧ c ≤ 'z') ∨ ('A' ≤ c ∧ c ≤ 'Z') ∨ ('0' ≤ c ∧ c ≤ '9'))

/-- `word.charAt(0).toUpperCase() + word.slice(1).toLowerCase()`. -/
def capitalizeJs (w : String) : String :=
  match w.data with
  | [] => ""
  | c :: rest => String.mk (c.toUpper :: rest.map Char.toLower)

/-- `stringCase` of Plugin.js: non-alphanumerics become spaces, the
string splits into nonempty words, the first word lower-cases unless
Pascal-casing, every other word capitalizes. -/
def stringCase (str : String) (pascalCase : Bool) : String :=
  let words :=
    (splitChar (String.mk (str.data.map (fun c => if isAsciiAlnum c then c else ' ')))
      ' ').filter (fun w => w ≠ "")
  String.join (words.enum.map (fun p =>
    if p.1 = 0 && !pascalCase then String.mk (p.2.data.map Char.toLower)
    else capitalizeJs p.2))

/-- `transformImportName` of Plugin.js: recase only when `nameTransform`
is truthy, Pascal-casing exactly when it equals `"PascalCase"`. -/
def transformImportName (name : String) (options : PluginOptions) : String :=
  if jsTruthy options.nameTransform then
    stringCase name (options.nameTransform == some "PascalCase")
  else
    name

/-- `ts.TextSpan`. -/
structure TextSpan where
  start : Nat
  length : Nat
deriving DecidableEq

/-- `ts.TextChange`. -/
structure TextChange where
  span : TextSpan
  newText : String
deriving DecidableEq

/-- `ts.FileTextChanges`. -/
structure FileTextChanges where
  fileName : String
  textChanges : List TextChange
deriving DecidableEq

/-- `ts.CodeFixAction` (commands stay empty in this plugin). -/
structure CodeFixAction where
  fixName : String
  description : String
  changes : List FileTextChanges
  commands : List Unit
deriving DecidableEq

/-- `getCodeFixActionFromPath` of Plugin.js (lines 253–275): build the
namespace-import text and wrap it as a single zero-length insertion at
offset 0 of the importing file. -/
def getCodeFixActionFromPath (name selfPath modulePath : String)
    (opts : CompilerOptions) (native : Option (Except Unit String)) :
    CodeFixAction :=
  let moduleSpecifier := getModuleSpceifier selfPath modulePath opts native
  let text := "import * as " ++ name ++ " from \"" ++ moduleSpecifier ++ "\";\n"
  { fixName := "namespace-import"
    description := text
    changes := [{ fileName := selfPath
                  textChanges := [{ span := { start := 0, length := 0 }
                                    newText := text }] }]
    commands := [] }

/-- The slice of `ts.CompletionEntryDetails` the plugin produces. -/
structure CompletionEntryDetails where
  name : String
  kindModifiers : String
  codeActions : List CodeFixAction

/-- `getCompletionEntryDetails` of Plugin.js. -/
def getCompletionEntryDetails (name selfPath modulePath : String)
    (opts : CompilerOptions) (native : Option (Except Unit String)) :
    CompletionEntryDetails :=
  let action := getCodeFixActionFromPath name selfPath modulePath opts native
  { name := name, kindModifiers := "", codeActions := [action] }

/-- `text.slice(start, end)` of JavaScript on nonnegative indices. -/
def sliceJs (t : String) (start stop : Nat) : String :=
  String.mk ((t.data.drop start).take (stop - start))

/-- The slice of `ts.server.PluginCreateInfo` that `getCodeFixActionByName`
reads: source-file text lookup (`none` when the program has no such
file), the plugin options and the project. -/
structure Info where
  getSourceFileText : String → Option String
  options : PluginOptions
  project : Project

/-- `getCodeFixActionByName` of Plugin.js (lines 104–122): slice the
selected text, bail out on a falsy name, then look up the first
discovered module whose basename-without-extension equals the name. -/
def getCodeFixActionByName (selfPath : String) (start stop : Nat)
    (info : Info) (opts : CompilerOptions)
    (native : Option (Except Unit String)) : Option CodeFixAction :=
  match info.getSourceFileText selfPath with
  | none => none
  | some t =>
    let name := sliceJs t start stop
    if name = "" then none
    else
      let modulePaths := getModulePathsToImport info.options info.project
      match modulePaths.find? (fun filePath =>
          getFileNameWithoutExt filePath == name) with
      | some modulePath =>
        some (getCodeFixActionFromPath name selfPath modulePath opts native)
      | none => none

/-- The data payload carried on a completion entry. -/
structure EntryData where
  exportName : Option String
  fileName : Option String
deriving DecidableEq

/-- The slice of `ts.CompletionEntry` that `filterNamedImportEntries`
reads. -/
structure CompletionEntry where
  name : String
  data : Option EntryData
deriving DecidableEq

/-- The body of the `dirPaths.some(...)` callback:
`entry.data?.exportName && entry.data.fileName?.startsWith(dirPath)`
under JS truthiness and optional chaining. -/
def entryMatchesDir (entry : CompletionEntry) (dirPath : String) : Bool :=
  match entry.data with
  | none => false
  | some d =>
    (match d.exportName with
     | none => false
     | some s => !(s == "")) &&
    (match d.fileName with
     | none => false
     | some f => strStartsWith f dirPath)

/-- `filterNamedImportEntries` of Plugin.js (lines 48–62).  When
`ignoreNamedExport` is falsy the entries pass through untouched; when it
is truthy the code maps over `options.paths`, which throws a
`TypeError` (`.error ()`) if `paths` is absent. -/
def filterNamedImportEntries (entries : List CompletionEntry)
    (options : PluginOptions) (currentDir : String) :
    Except Unit (List CompletionEntry) :=
  if !options.ignoreNamedExport then
    Except.ok entries
  else
    match options.paths with
    | none => Except.error ()
    | some ps =>
      let dirPaths := ps.map (fun dirPath => resolvePath currentDir dirPath)
      Except.ok (entries.filter (fun entry =>
        !(dirPaths.any (fun dirPath => entryMatchesDir entry dirPath))))

/-! Concrete fixtures used by witness theorems. -/

/-- A project whose directory listing repeats paths and mixes naming
styles, exercising the discovery filters. -/
def projectC5 : Project :=
  ⟨"/p", fun _ _ _ => ["/p/Foo.ts", "/p/Foo.ts", "/p/bar.ts", "/p/Baz.test.ts"]⟩

/-- Options with two overlapping search roots and the capitalized-only
filter on. -/
def optionsC5 : PluginOptions := ⟨some ["a", "b"], false, none, true⟩

/-- An info whose selected text matches no discovered module. -/
def infoC8 : Info :=
  ⟨fun _ => some "Nope", ⟨some ["b"], false, none, false⟩,
   ⟨"/x", fun _ _ _ => ["/x/b/Bar.ts"]⟩⟩

/-! Helper lemmas. -/

/-- Replacing backslashes leaves none behind. -/
theorem hasBackslash_replaceBackslashes (s : String) :
    hasBackslash (replaceBackslashes s) = false := by
  simp only [hasBackslash, replaceBackslashes, List.any_map]
  rw [List.any_eq_false]
  intro c _
  by_cases h : c = '\\' <;> simp [h]

/-- A backslash-free string stays backslash-free under a character
prefix. -/
theorem hasBackslash_take (s : String) (n : Nat)
    (h : hasBackslash s = false) :
    hasBackslash (String.mk (s.data.take n)) = false := by
  simp only [hasBackslash] at *
  rw [List.any_eq_false] at *
  intro c hc
  exact h c ((List.take_sublist n s.data).subset hc)

/-- `hasBackslash` distributes over string append. -/
theorem hasBackslash_append (a b : String) :
    hasBackslash (a ++ b) = (hasBackslash a || hasBackslash b) := by
  cases a with
  | mk as =>
    cases b with
    | mk bs =>
      show (as ++ bs).any _ = _
      exact List.any_append

/-- Both the `"js"` and the default ending policy re-append the module's
original extension after stripping. -/
theorem fallbackSpecifier_eq_reappended (selfPath modulePath : String)
    (opts : CompilerOptions)
    (h : opts.importModuleSpecifierEnding ≠ some "minimal") :
    fallbackSpecifier selfPath modulePath opts =
      getFilePathWithoutExt (fallbackRawSpecifier selfPath modulePath opts)
        ++ extname modulePath := by
  unfold fallbackSpecifier
  by_cases hj : opts.importModuleSpecifierEnding = some "js" <;> simp [hj, h]

/-- The dedup fold keeps the accumulator duplicate-free. -/
theorem jsSetDedup_loop_nodup :
    ∀ (l acc : List String), acc.Nodup →
      (l.foldl (fun acc x => if x ∈ acc then acc else acc ++ [x]) acc).Nodup
  | [], _, h => h
  | x :: t, acc, h => by
    simp only [List.foldl_cons]
    by_cases hx : x ∈ acc
    · rw [if_pos hx]
      exact jsSetDedup_loop_nodup t acc h
    · rw [if_neg hx]
      exact jsSetDedup_loop_nodup t _ (by simp [List.nodup_append, h, hx])

/-- Membership through the dedup fold. -/
theorem jsSetDedup_loop_mem :
    ∀ (l acc : List String) (x : String),
      x ∈ l.foldl (fun acc x => if x ∈ acc then acc else acc ++ [x]) acc ↔
        x ∈ acc ∨ x ∈ l
  | [], acc, x => by simp
  | y :: t, acc, x => by
    simp only [List.foldl_cons]
    by_cases hy : y ∈ acc
    · rw [if_pos hy, jsSetDedup_loop_mem t acc x]
      simp only [List.mem_cons]
      constructor
      · rintro (h | h)
        · exact Or.inl h
        · exact Or.inr (Or.inr h)
      · rintro (h | h | h)
        · exact Or.inl h
        · exact Or.inl (h ▸ hy)
        · exact Or.inr h
    · rw [if_neg hy, jsSetDedup_loop_mem t (acc ++ [y]) x]
      simp only [List.mem_append, List.mem_cons, List.mem_singleton]
      tauto

/-- `jsSetDedup` yields a duplicate-free list. -/
theorem jsSetDedup_nodup (l : List String) : (jsSetDedup l).Nodup :=
  jsSetDedup_loop_nodup l [] List.nodup_nil

/-- `jsSetDedup` preserves membership exactly. -/
theorem mem_jsSetDedup {x : String} {l : List String} :
    x ∈ jsSetDedup l ↔ x ∈ l := by
  rw [jsSetDedup, jsSetDedup_loop_mem]
  simp

/-- Every discovered module path passed the dot filter and, when
requested, the capitalization filter. -/
theorem mem_getModulePathsToImport {options : PluginOptions}
    {project : Project} {p : String}
    (hp : p ∈ getModulePathsToImport options project) :
    (getFileNameWithoutExt p).data.contains '.' = false ∧
    (options.capitalizedFilesOnly = true →
      startsWithUpperAscii (getFileNameWithoutExt p) = true) := by
  simp only [getModulePathsToImport, mem_jsSetDedup] at hp
  rw [List.mem_filter] at hp
  obtain ⟨-, hpred⟩ := hp
  by_cases h1 : (getFileNameWithoutExt p).data.contains '.'
  · rw [if_pos h1] at hpred
    exact absurd hpred (by simp)
  · rw [if_neg h1] at hpred
    refine ⟨by simpa using h1, ?_⟩
    intro hc
    rw [hc] at hpred
    simpa using hpred

/-! Claim theorems. -/

/-- C1: with no `baseUrl`, importing `/proj/src/b/Bar.ts` from
`/proj/src/a/Foo.ts` falls back to `../b/Bar` with the module's
original extension re-appended: `../b/Bar.ts` for `"js"` and for any
setting other than `"minimal"` (including unset), and `../b/Bar` for
`"minimal"`. -/
theorem claim_C1_relative_fallback (ending : Option String)
    (h : ending ≠ some "minimal") :
    fallbackSpecifier "/proj/src/a/Foo.ts" "/proj/src/b/Bar.ts"
        ⟨none, ending⟩ = "../b/Bar.ts" ∧
    fallbackSpecifier "/proj/src/a/Foo.ts" "/proj/src/b/Bar.ts"
        ⟨none, some "minimal"⟩ = "../b/Bar" := by
  constructor
  · rw [fallbackSpecifier_eq_reappended _ _ _ h]
    have hraw : fallbackRawSpecifier "/proj/src/a/Foo.ts" "/proj/src/b/Bar.ts"
        ⟨none, ending⟩ = "../b/Bar.ts" := rfl
    rw [hraw]
    decide
  · decide

/-- Witness for C1 at the `"js"` ending and implicitly the `"minimal"`
ending. -/
theorem claim_C1_witness :
    fallbackSpecifier "/proj/src/a/Foo.ts" "/proj/src/b/Bar.ts"
        ⟨none, some "js"⟩ = "../b/Bar.ts" ∧
    fallbackSpecifier "/proj/src/a/Foo.ts" "/proj/src/b/Bar.ts"
        ⟨none, some "minimal"⟩ = "../b/Bar" :=
  claim_C1_relative_fallback (some "js") (by decide)

/-- C2: when the native module-specifier resolver throws, the resolver
swallows the exception and returns exactly the fallback algorithm's
specifier for the same inputs. -/
theorem claim_C2_native_failure_falls_back (selfPath modulePath : String)
    (opts : CompilerOptions) (e : Unit) :
    getModuleSpceifier selfPath modulePath opts (some (Except.error e)) =
      fallbackSpecifier selfPath modulePath opts := rfl

/-- C3: the fallback adds no `./` to a baseUrl-relative specifier nor to
an already-dotted directory-relative path, and always adds `./` to a
directory-relative path lacking a leading dot; concretely the baseUrl
case `/proj/src` → `/proj/src/b/Bar.ts` yields `b/Bar.ts` with no
leading dot and the sibling case yields `./Baz.ts`. -/
theorem claim_C3_dot_prefixing (selfPath modulePath : String)
    (opts : CompilerOptions) :
    (jsTruthy opts.baseUrl = true →
      fallbackRawSpecifier selfPath modulePath opts =
        posixRelative (opts.baseUrl.getD "") modulePath) ∧
    (jsTruthy opts.baseUrl = false →
      (strStartsWith (posixRelative (dirname selfPath) modulePath) "." = true →
        fallbackRawSpecifier selfPath modulePath opts =
          replaceBackslashes (posixRelative (dirname selfPath) modulePath)) ∧
      (strStartsWith (posixRelative (dirname selfPath) modulePath) "." = false →
        fallbackRawSpecifier selfPath modulePath opts =
          replaceBackslashes ("./" ++ posixRelative (dirname selfPath) modulePath))) ∧
    fallbackRawSpecifier "/proj/src/a/Foo.ts" "/proj/src/b/Bar.ts"
        ⟨some "/proj/src", none⟩ = "b/Bar.ts" ∧
    fallbackRawSpecifier "/proj/src/a/Foo.ts" "/proj/src/a/Baz.ts"
        ⟨none, none⟩ = "./Baz.ts" := by
  refine ⟨?_, ?_, by decide, by decide⟩
  · intro h
    simp [fallbackRawSpecifier, h]
  · intro h
    constructor <;> intro h2 <;> simp [fallbackRawSpecifier, h, h2]

/-- Witness for C3 on a truthy-baseUrl and a falsy-baseUrl instance. -/
theorem claim_C3_witness :
    fallbackRawSpecifier "/proj/src/a/Foo.ts" "/proj/src/b/Bar.ts"
        ⟨some "/proj/src", none⟩ =
      posixRelative "/proj/src" "/proj/src/b/Bar.ts" ∧
    fallbackRawSpecifier "/proj/src/a/Foo.ts" "/proj/src/a/Baz.ts"
        ⟨none, none⟩ =
      replaceBackslashes
        ("./" ++ posixRelative (dirname "/proj/src/a/Foo.ts") "/proj/src/a/Baz.ts") :=
  ⟨(claim_C3_dot_prefixing "/proj/src/a/Foo.ts" "/proj/src/b/Bar.ts"
      ⟨some "/proj/src", none⟩).1 (by decide),
   ((claim_C3_dot_prefixing "/proj/src/a/Foo.ts" "/proj/src/a/Baz.ts"
      ⟨none, none⟩).2.1 (by decide)).2 (by decide)⟩

/-- C4 counterexample: with `baseUrl = /proj` and a module path holding
a backslash, the fallback returns a specifier that still contains a
backslash — the replacement runs only in the no-baseUrl branch. -/
theorem claim_C4_counterexample :
    hasBackslash (fallbackSpecifier "/proj/a/Foo.ts" "/proj/b\\Bar.ts"
      ⟨some "/proj", none⟩) = true := by decide

/-- C4 amended: only the no-baseUrl branch replaces backslashes; there
the raw specifier is backslash-free, and the full specifier is
backslash-free whenever the module's extension is. -/
theorem claim_C4_amended_backslashes (selfPath modulePath : String)
    (opts : CompilerOptions) (hbase : jsTruthy opts.baseUrl = false) :
    hasBackslash (fallbackRawSpecifier selfPath modulePath opts) = false ∧
    (hasBackslash (extname modulePath) = false →
      hasBackslash (fallbackSpecifier selfPath modulePath opts) = false) := by
  have hraw : hasBackslash (fallbackRawSpecifier selfPath modulePath opts) = false := by
    simp [fallbackRawSpecifier, hbase, hasBackslash_replaceBackslashes]
  refine ⟨hraw, ?_⟩
  intro hext
  have hstrip :
      hasBackslash (getFilePathWithoutExt
        (fallbackRawSpecifier selfPath modulePath opts)) = false := by
    unfold getFilePathWithoutExt
    exact hasBackslash_take _ _ hraw
  unfold fallbackSpecifier
  split_ifs <;> simp [hasBackslash_append, hstrip, hext]

/-- Witness for C4's amended statement on a Windows-style relative
module path. -/
theorem claim_C4_witness :
    hasBackslash (fallbackRawSpecifier "/proj/a/Foo.ts" "/proj/b\\Bar.ts"
        ⟨none, none⟩) = false :=
  (claim_C4_amended_backslashes "/proj/a/Foo.ts" "/proj/b\\Bar.ts"
    ⟨none, none⟩ (by decide)).1

/-- C6: `transformImportName` recases `state_machine` to `StateMachine`
under `PascalCase` and to `stateMachine` under `camelCase`, and returns
every basename unchanged when `nameTransform` is absent. -/
theorem claim_C6_name_transform :
    transformImportName "state_machine" ⟨none, false, some "PascalCase", false⟩ =
      "StateMachine" ∧
    transformImportName "state_machine" ⟨none, false, some "camelCase", false⟩ =
      "stateMachine" ∧
    ∀ (name : String) (paths : Option (List String)) (ine capo : Bool),
      transformImportName name ⟨paths, ine, none, capo⟩ = name := by
  refine ⟨by decide, by decide, ?_⟩
  intro name paths ine capo
  rfl

/-- C7: every generated import edit is exactly
`import * as <Name> from "<specifier>";` plus a newline, delivered as a
single zero-length text change at offset 0 of the importing file, both
from the code-fix path and from completion-detail resolution. -/
theorem claim_C7_edit_shape (name selfPath modulePath : String)
    (opts : CompilerOptions) (native : Option (Except Unit String)) :
    getCodeFixActionFromPath name selfPath modulePath opts native =
      { fixName := "namespace-import"
        description := "import * as " ++ name ++ " from \"" ++
          getModuleSpceifier selfPath modulePath opts native ++ "\";\n"
        changes := [{ fileName := selfPath
                      textChanges := [{ span := { start := 0, length := 0 }
                                        newText := "import * as " ++ name ++
                                          " from \"" ++
                                          getModuleSpceifier selfPath modulePath
                                            opts native ++ "\";\n" }] }]
        commands := [] } ∧
    (getCompletionEntryDetails name selfPath modulePath opts native).codeActions =
      [getCodeFixActionFromPath name selfPath modulePath opts native] :=
  ⟨rfl, rfl⟩

/-- C5: module discovery returns each distinct path at most once, never
returns a path whose basename-without-extension contains a dot, and
under `capitalizedFilesOnly` returns only paths whose basename starts
with an uppercase ASCII letter. -/
theorem claim_C5_discovery_filters (options : PluginOptions)
    (project : Project) :
    (getModulePathsToImport options project).Nodup ∧
    (∀ p ∈ getModulePathsToImport options project,
      (getFileNameWithoutExt p).data.contains '.' = false) ∧
    (options.capitalizedFilesOnly = true →
      ∀ p ∈ getModulePathsToImport options project,
        startsWithUpperAscii (getFileNameWithoutExt p) = true) :=
  ⟨jsSetDedup_nodup _,
   fun _ hp => (mem_getModulePathsToImport hp).1,
   fun hc _ hp => (mem_getModulePathsToImport hp).2 hc⟩

/-- Witness for C5 on a project whose overlapping roots repeat
`/p/Foo.ts` and also report a lowercase and a dotted basename. -/
theorem claim_C5_witness :
    startsWithUpperAscii (getFileNameWithoutExt "/p/Foo.ts") = true :=
  (claim_C5_discovery_filters optionsC5 projectC5).2.2 rfl "/p/Foo.ts" (by decide)

/-- C8: the code fix selects a module only by exact equality of the
selected text with a discovered basename-without-extension, and returns
`null` when the text is unavailable, empty, or matches no module. -/
theorem claim_C8_code_fix_matching (selfPath : String) (start stop : Nat)
    (info : Info) (opts : CompilerOptions)
    (native : Option (Except Unit String)) :
    (info.getSourceFileText selfPath = none →
      getCodeFixActionByName selfPath start stop info opts native = none) ∧
    (∀ t, info.getSourceFileText selfPath = some t →
      (sliceJs t start stop = "" →
        getCodeFixActionByName selfPath start stop info opts native = none) ∧
      ((∀ mp ∈ getModulePathsToImport info.options info.project,
          getFileNameWithoutExt mp ≠ sliceJs t start stop) →
        getCodeFixActionByName selfPath start stop info opts native = none) ∧
      (∀ act,
        getCodeFixActionByName selfPath start stop info opts native = some act →
        ∃ mp ∈ getModulePathsToImport info.options info.project,
          getFileNameWithoutExt mp = sliceJs t start stop ∧
          act = getCodeFixActionFromPath (sliceJs t start stop) selfPath mp
                  opts native)) := by
  constructor
  · intro h
    simp [getCodeFixActionByName, h]
  · intro t ht
    refine ⟨?_, ?_, ?_⟩
    · intro hempty
      simp [getCodeFixActionByName, ht, hempty]
    · intro hnone
      have hfind : (getModulePathsToImport info.options info.project).find?
          (fun filePath => getFileNameWithoutExt filePath == sliceJs t start stop)
          = none := by
        rw [List.find?_eq_none]
        intro x hx
        simp [hnone x hx]
      by_cases hempty : sliceJs t start stop = ""
      · simp [getCodeFixActionByName, ht, hempty]
      · simp [getCodeFixActionByName, ht, hempty, hfind]
    · intro act hact
      simp only [getCodeFixActionByName, ht] at hact
      by_cases hempty : sliceJs t start stop = ""
      · simp [hempty] at hact
      · rw [if_neg hempty] at hact
        cases hfind : (getModulePathsToImport info.options info.project).find?
            (fun filePath =>
              getFileNameWithoutExt filePath == sliceJs t start stop) with
        | none => rw [hfind] at hact; exact absurd hact (by simp)
        | some mp =>
          rw [hfind] at hact
          refine ⟨mp, List.mem_of_find?_eq_some hfind, ?_, ?_⟩
          · have := List.find?_some hfind
            exact eq_of_beq this
          · exact (Option.some.injEq _ _ ▸ hact).symm

/-- Witness for C8: nothing matches the selected text `Nope`, and an
empty selection also yields no fix. -/
theorem claim_C8_witness :
    getCodeFixActionByName "/x/Foo.ts" 0 0 infoC8 ⟨none, none⟩ none = none ∧
    getCodeFixActionByName "/x/Foo.ts" 0 4 infoC8 ⟨none, none⟩ none = none :=
  ⟨((claim_C8_code_fix_matching "/x/Foo.ts" 0 0 infoC8 ⟨none, none⟩ none).2
      "Nope" rfl).1 (by decide),
   ((claim_C8_code_fix_matching "/x/Foo.ts" 0 4 infoC8 ⟨none, none⟩ none).2
      "Nope" rfl).2.1 (by decide)⟩

/-- C9: `filterNamedImportEntries` passes the entries through untouched
when `ignoreNamedExport` is falsy, throws when `ignoreNamedExport` is
set but `paths` is absent, and succeeds when both are present. -/
theorem claim_C9_filter_totality (entries : List CompletionEntry)
    (options : PluginOptions) (currentDir : String) :
    (options.ignoreNamedExport = false →
      filterNamedImportEntries entries options currentDir =
        Except.ok entries) ∧
    (options.ignoreNamedExport = true → options.paths = none →
      filterNamedImportEntries entries options currentDir =
        Except.error ()) ∧
    (options.ignoreNamedExport = true → ∀ ps, options.paths = some ps →
      ∃ out, filterNamedImportEntries entries options currentDir =
        Except.ok out) := by
  refine ⟨?_, ?_, ?_⟩
  · intro h
    simp [filterNamedImportEntries, h]
  · intro h hp
    simp [filterNamedImportEntries, h, hp]
  · intro h ps hp
    simp [filterNamedImportEntries, h, hp]

/-- Witness for C9: the pass-through case and the missing-paths
`TypeError` case at concrete inputs. -/
theorem claim_C9_witness :
    filterNamedImportEntries [⟨"E", none⟩] ⟨none, false, none, false⟩ "/p" =
      Except.ok [⟨"E", none⟩] ∧
    filterNamedImportEntries [⟨"E", none⟩] ⟨none, true, none, false⟩ "/p" =
      Except.error () :=
  ⟨(claim_C9_filter_totality [⟨"E", none⟩] ⟨none, false, none, false⟩ "/p").1 rfl,
   (claim_C9_filter_totality [⟨"E", none⟩] ⟨none, true, none, false⟩ "/p").2.1
     rfl rfl⟩

/-- C10: with `ignoreNamedExport` set and `paths` present, an entry
whose data payload lacks an `exportName` is never filtered out, whatever
its file path. -/
theorem claim_C10_no_export_name_preserved (entries : List CompletionEntry)
    (options : PluginOptions) (currentDir : String) (ps : List String)
    (e : CompletionEntry) (hign : options.ignoreNamedExport = true)
    (hps : options.paths = some ps) (he : e ∈ entries)
    (hnoexp : ∀ d, e.data = some d → d.exportName = none) :
    ∃ out, filterNamedImportEntries entries options currentDir =
      Except.ok out ∧ e ∈ out := by
  have hmatch : ∀ dp, entryMatchesDir e dp = false := by
    intro dp
    unfold entryMatchesDir
    cases hd : e.data with
    | none => rfl
    | some d => simp [hnoexp d hd]
  refine ⟨List.filter (fun entry =>
      !((ps.map (fun dirPath => resolvePath currentDir dirPath)).any
        (fun dirPath => entryMatchesDir entry dirPath))) entries, ?_, ?_⟩
  · simp [filterNamedImportEntries, hign, hps]
  · rw [List.mem_filter]
    refine ⟨he, ?_⟩
    simp [hmatch]

/-- Witness for C10: an entry with no data payload survives filtering
under a configured root. -/
theorem claim_C10_witness :
    ∃ out, filterNamedImportEntries [⟨"E", none⟩] ⟨some ["b"], true, none, false⟩
      "/p" = Except.ok out ∧ (⟨"E", none⟩ : CompletionEntry) ∈ out :=
  claim_C10_no_export_name_preserved [⟨"E", none⟩]
    ⟨some ["b"], true, none, false⟩ "/p" ["b"] ⟨"E", none⟩ rfl rfl
    (by decide) (fun d hd => Option.noConfusion hd)
